import Mathlib

/-!
Verification development for the tilt development-loop orchestrator.

Part 1 embeds the Tiltfile loader from src/internal/tiltfile/tiltfile.go.
Part 2 models the build-strategy composite, the store and the
build-scheduler engine; their Go sources (internal/engine, internal/store,
pkg/model, internal/sliceutils) are not under src/, so those definitions are
modelled from the specification, as marked in their doc comments.
-/

namespace Tilt

/-! ### Part 1: the Tiltfile loader (src/internal/tiltfile/tiltfile.go) -/

/-- A Go error value as observed by tiltfile.go: a message together with
whether os.IsNotExist holds of it. -/
structure GoError where
  msg : String
  isNotExist : Bool
deriving DecidableEq, Repr

/-- Modelled from the spec: model.Manifest (pkg/model, not under src/) as
observed by tiltfile.go, i.e. through its IsK8s and IsDC predicates
(whether the manifest is Kubernetes-managed resp. Compose-managed),
plus a name. -/
structure Manifest where
  name : String
  IsK8s : Bool
  IsDC : Bool
deriving DecidableEq, Repr

/-- model.Orchestrator: OrchestratorK8s, OrchestratorDC, OrchestratorUnknown. -/
inductive Orchestrator
  | K8s
  | DC
  | Unknown
deriving DecidableEq, Repr

/-- model.UserConfigState as threaded through Load (opaque to the loader). -/
structure UserConfigState where
  args : List String
deriving DecidableEq, Repr

/-- Modelled from the spec: the combined outcome of tiltfileState.loadManifests
and the starkit state extractions (io.GetState, the post-exec read files) —
tiltfile_state.go is not under src/. Only the components tiltfile.go reads
are modelled. -/
structure ManifestsOutcome where
  manifests : List Manifest
  ioFiles : List String
  postExecReadFiles : List String
  err : Option GoError
deriving DecidableEq, Repr

/-- The environment a Load call runs against: ospath.RealAbs, filepath.Abs,
ioutil.ReadFile, and the Tiltfile execution (loadManifests). Each is a pure
function describing what the corresponding call would return. -/
structure LoadEnv where
  realAbs : String → Except GoError String
  abs : String → String
  readFile : String → Except GoError String
  loadManifests : String → UserConfigState → ManifestsOutcome

/-- Modelled from the spec: loadManifests (tiltfile_state.go, not under src/)
executes the Tiltfile and records every file it reads in the io state,
the Tiltfile itself included, so the Tiltfile path is always among the
recorded files. -/
def LoadEnv.RecordsTiltfile (env : LoadEnv) : Prop :=
  ∀ p ucs, p ∈ (env.loadManifests p ucs).ioFiles

/-- TiltfileLoadResult from tiltfile.go. Fields not touched by the claims
under verification (Warnings, FeatureFlags, TeamName, TelemetryCmd, Secrets,
DockerPruneSettings, AnalyticsOpt, VersionSettings) are omitted. -/
structure TiltfileLoadResult where
  Manifests : List Manifest
  ConfigFiles : List String
  TiltIgnoreContents : String
  Error : Option GoError
deriving DecidableEq, Repr

/-- The scan performed by TiltfileLoadResult.Orchestrator: first manifest
that IsK8s gives K8s; otherwise first that IsDC gives DC; else Unknown. -/
def orchestratorOf : List Manifest → Orchestrator
  | [] => Orchestrator.Unknown
  | m :: rest =>
    if m.IsK8s then Orchestrator.K8s
    else if m.IsDC then Orchestrator.DC
    else orchestratorOf rest

/-- TiltfileLoadResult.Orchestrator (tiltfile.go lines 55-64). -/
def TiltfileLoadResult.Orchestrator (r : TiltfileLoadResult) : Tilt.Orchestrator :=
  orchestratorOf r.Manifests

/-- Restatement of claim C10's wording: the orchestrator is decided by the
earliest manifest that is Kubernetes- or Compose-managed. -/
def orchestratorSpec (ms : List Manifest) : Orchestrator :=
  match ms.find? (fun m => m.IsK8s || m.IsDC) with
  | none => Orchestrator.Unknown
  | some m => if m.IsK8s then Orchestrator.K8s else Orchestrator.DC

/-- const FileName = "Tiltfile". -/
def FileName : String := "Tiltfile"

/-- const TiltIgnoreFileName = ".tiltignore". -/
def TiltIgnoreFileName : String := ".tiltignore"

/-- filepath.Dir, modelled for slash-separated paths: everything up to the
last separator, "." when there is none. -/
def filepathDir (p : String) : String :=
  let parts := p.splitOn ("/")
  if parts.length ≤ 1 then "." else String.intercalate ("/") parts.dropLast

/-- filepath.Join for two components, modelled for slash-separated paths. -/
def filepathJoin (a b : String) : String :=
  if a = "" then b else a ++ "/" ++ b

/-- tiltIgnorePath (tiltfile.go lines 189-192): .tiltignore sits next to the
Tiltfile. -/
def tiltIgnorePath (tiltfilePath : String) : String :=
  filepathJoin (filepathDir tiltfilePath) TiltIgnoreFileName

/-- Modelled from the spec: sliceutils.AppendWithoutDupes (not under src/)
appends the elements of b after a, skipping any element already present. -/
def appendWithoutDupes (a : List String) (b : List String) : List String :=
  b.foldl (fun acc s => if acc.contains s then acc else acc ++ [s]) a

/-- The message built by Load when the Tiltfile path does not exist. -/
def noTiltfileFoundMsg (filename : String) : String :=
  "No Tiltfile found at paths \x27" ++ filename ++
    "\x27. Check out https://docs.tilt.dev/tutorial.html"

/-- The tail of Load after the .tiltignore read: run loadManifests and
assemble the result (tiltfile.go lines 155-186); ConfigFiles is overwritten
with the files recorded during execution. -/
def loadRest (env : LoadEnv) (absFilename : String) (ucs : UserConfigState)
    (tiltIgnoreContents : String) : TiltfileLoadResult :=
  let mo := env.loadManifests absFilename ucs
  { Manifests := mo.manifests
    ConfigFiles := appendWithoutDupes mo.ioFiles mo.postExecReadFiles
    TiltIgnoreContents := tiltIgnoreContents
    Error := mo.err }

/-- tiltfileLoader.Load (tiltfile.go lines 123-187). By design it always
returns a TiltfileLoadResult, never a bare error. -/
def Load (env : LoadEnv) (filename : String) (ucs : UserConfigState) :
    TiltfileLoadResult :=
  match env.realAbs filename with
  | Except.error e =>
    if e.isNotExist then
      { Manifests := []
        ConfigFiles := [filename]
        TiltIgnoreContents := ""
        Error := some { msg := noTiltfileFoundMsg filename, isNotExist := false } }
    else
      { Manifests := []
        ConfigFiles := [env.abs filename]
        TiltIgnoreContents := ""
        Error := some e }
  | Except.ok absFilename =>
    match env.readFile (tiltIgnorePath absFilename) with
    | Except.error e =>
      if !e.isNotExist then
        { Manifests := []
          ConfigFiles := [absFilename, tiltIgnorePath absFilename]
          TiltIgnoreContents := ""
          Error := some e }
      else
        loadRest env absFilename ucs ""
    | Except.ok contents => loadRest env absFilename ucs contents

/-- A concrete load environment for the C8 witness: every path resolves,
.tiltignore is missing, and executing the Tiltfile records exactly the
Tiltfile itself. -/
def c8Env : LoadEnv :=
  { realAbs := fun s => Except.ok s
    abs := fun s => s
    readFile := fun _ => Except.error { msg := "ENOENT", isNotExist := true }
    loadManifests := fun p _ => { manifests := [], ioFiles := [p], postExecReadFiles := [], err := none } }

/-- A concrete load environment for the C9 witness: .tiltignore is missing
with an IsNotExist error, and execution returns one Compose manifest. -/
def c9Env : LoadEnv :=
  { realAbs := fun s => Except.ok s
    abs := fun s => s
    readFile := fun _ => Except.error { msg := "ENOENT", isNotExist := true }
    loadManifests := fun p _ =>
      { manifests := [{ name := "svc", IsK8s := false, IsDC := true }]
        ioFiles := [p], postExecReadFiles := [], err := none } }

/-! ### Part 2: the build-strategy composite (internal/engine, not under src/) -/

/-- Modelled from the spec: the four build-and-deploy strategy kinds —
incremental in-place (live) update, full image build + deploy, Compose
build + up, local command execution. -/
inductive BuildStratKind
  | liveUpdate
  | imageBuild
  | dockerCompose
  | localExec
deriving DecidableEq, Repr

/-- Modelled from the spec: a strategy signals Success(result),
Rejected(reason) — try the next strategy — or Fatal(error) — stop. -/
inductive StratOutcome (R : Type)
  | success (r : R)
  | rejected (reason : String)
  | fatal (err : String)
deriving DecidableEq, Repr

/-- Modelled from the spec: one BuildAndDeployer strategy — its kind and
what it returns on the given build inputs. -/
structure Strategy (I R : Type) where
  kind : BuildStratKind
  run : I → StratOutcome R

/-- Modelled from the spec: the single final BuildResult of the composite —
which strategy succeeded and its result, or the final Fatal, or exhaustion
after every strategy rejected. -/
inductive CompositeResult (R : Type)
  | success (k : BuildStratKind) (r : R)
  | fatal (err : String)
  | exhausted
deriving DecidableEq, Repr

/-- Modelled from the spec: NewCompositeBuildAndDeployer tries the ordered
strategies, falling back on Rejected and stopping at the first Success or
Fatal; returns the final result together with the kinds attempted, in
order. -/
def runComposite {I R : Type} (l : List (Strategy I R)) (i : I) :
    CompositeResult R × List BuildStratKind :=
  match l with
  | [] => (CompositeResult.exhausted, [])
  | s :: rest =>
    match s.run i with
    | StratOutcome.success r => (CompositeResult.success s.kind r, [s.kind])
    | StratOutcome.rejected _ =>
      let p := runComposite rest i
      (p.1, s.kind :: p.2)
    | StratOutcome.fatal e => (CompositeResult.fatal e, [s.kind])

/-- Modelled from the spec: engine.DefaultBuildOrder — candidate strategies
in fixed priority order: live update first, then full image build + deploy,
then Compose build + up, then local command execution. -/
def DefaultBuildOrder {I R : Type} (lu ib dc lt : I → StratOutcome R) :
    List (Strategy I R) :=
  [{ kind := BuildStratKind.liveUpdate, run := lu },
   { kind := BuildStratKind.imageBuild, run := ib },
   { kind := BuildStratKind.dockerCompose, run := dc },
   { kind := BuildStratKind.localExec, run := lt }]

/-! ### Part 3: the store (internal/store, not under src/) -/

/-- Modelled from the spec: the store is generic in its reducer (store.NewStore
receives the reducer): a pure function from state and action to new state. -/
structure StoreModel (S A : Type) where
  reduce : S → A → S

/-- Modelled from the spec: the store's internal condition — the current
state plus the queue of dispatched but not yet applied actions. -/
structure StoreSt (S A : Type) where
  state : S
  queue : List A

/-- Modelled from the spec: Dispatch(action) enqueues the action and hands
off to the store's single processing loop; it does not run the reducer. -/
def dispatch {S A : Type} (st : StoreSt S A) (a : A) : StoreSt S A :=
  { st with queue := st.queue ++ [a] }

/-- Dispatching a list of actions one after the other. -/
def dispatchAll {S A : Type} (st : StoreSt S A) (as : List A) : StoreSt S A :=
  as.foldl dispatch st

/-- Modelled from the spec: one iteration of the processing loop — apply the
head of the queue through the reducer, if any; also reports which action was
applied. -/
def procStep {S A : Type} (m : StoreModel S A) (st : StoreSt S A) :
    StoreSt S A × Option A :=
  match st.queue with
  | [] => (st, none)
  | a :: q => ({ state := m.reduce st.state a, queue := q }, some a)

/-- An event at the store boundary: a caller dispatches an action, or the
processing loop performs one apply iteration. -/
inductive StoreEvt (A : Type)
  | dispatchE (a : A)
  | applyE
deriving DecidableEq, Repr

/-- The actions dispatched in an event sequence, in arrival order. -/
def dispatchedOf {A : Type} : List (StoreEvt A) → List A
  | [] => []
  | StoreEvt.dispatchE a :: es => a :: dispatchedOf es
  | StoreEvt.applyE :: es => dispatchedOf es

/-- Run an interleaving of dispatches and apply iterations; returns the final
store condition and the sequence of actions applied, in application order. -/
def runEvts {S A : Type} (m : StoreModel S A) (st : StoreSt S A) :
    List (StoreEvt A) → StoreSt S A × List A
  | [] => (st, [])
  | StoreEvt.dispatchE a :: es => runEvts m (dispatch st a) es
  | StoreEvt.applyE :: es =>
    let p := procStep m st
    let q := runEvts m p.1 es
    (q.1, p.2.toList ++ q.2)

/-- Modelled from the spec: the processing loop draining the whole queue,
applying each queued action in order; returns the final state and the
actions in application order. -/
def drainTrace {S A : Type} (m : StoreModel S A) (s : S) : List A → S × List A
  | [] => (s, [])
  | a :: q =>
    let p := drainTrace m (m.reduce s a) q
    (p.1, a :: p.2)

/-- Modelled from the spec: Snapshot() returns the point-in-time state. -/
def snapshot {S A : Type} (st : StoreSt S A) : S := st.state

/-- An operation at the store's caller-facing interface: Dispatch(a) or
Snapshot(). -/
inductive StoreOp (A : Type)
  | dispatchOp (a : A)
  | snapshotOp
deriving DecidableEq, Repr

/-- Modelled from the spec: the observable state after a sequence of store
operations — dispatched actions are applied in arrival order, Snapshot is a
pure read with no effect on state. The value a Snapshot at some point in the
sequence returns is the observable state of the prefix before it. -/
def stateAt {S A : Type} (m : StoreModel S A) (s0 : S) : List (StoreOp A) → S
  | [] => s0
  | StoreOp.dispatchOp a :: ops => stateAt m (m.reduce s0 a) ops
  | StoreOp.snapshotOp :: ops => stateAt m s0 ops

/-! ### Part 4: the build scheduler (internal/engine BuildController, not under src/) -/

/-- Targets are identified by name; names are rendered as naturals. -/
abbrev TargetId := Nat

/-- Modelled from the spec: the per-target status tracked by EngineState —
whether a build is in progress, whether the target is stale (a pending
FileChanged or dependency-result since its last successful build), and
whether its last completed build succeeded. -/
structure TargetState where
  building : Bool
  pending : Bool
  lastSuccess : Bool
deriving DecidableEq, Repr

/-- The status of a target that has never been touched. -/
def TargetState.initial : TargetState :=
  { building := false, pending := false, lastSuccess := false }

/-- Modelled from the spec: the static configuration — the declared targets
and, for each target, the list of targets it depends on. -/
structure EngineCfg where
  targets : List TargetId
  deps : TargetId → List TargetId

/-- Modelled from the spec: EngineState restricted to what the scheduler
claims need — the map from target to its status. -/
structure EState where
  ts : TargetId → TargetState

/-- The initial engine state: every target idle, clean, with no result. -/
def EState.initial : EState :=
  { ts := fun _ => TargetState.initial }

/-- Modelled from the spec: the actions that drive the scheduler —
FileChanged, BuildStarted, BuildCompleted (with success flag). -/
inductive EAction
  | fileChanged (t : TargetId)
  | buildStarted (t : TargetId)
  | buildCompleted (t : TargetId) (success : Bool)
deriving DecidableEq, Repr

/-- Modelled from the spec: the reducer on engine state. FileChanged marks
the target stale. BuildStarted marks it building. BuildCompleted clears
building and records the outcome; on success it clears the target's own
staleness and marks every direct dependent stale (each fresh result re-fires
this rule, so staleness cascades transitively along dependency chains). -/
def estep (cfg : EngineCfg) (s : EState) : EAction → EState
  | EAction.fileChanged t =>
    { ts := fun u => if u = t then { s.ts u with pending := true } else s.ts u }
  | EAction.buildStarted t =>
    { ts := fun u => if u = t then { s.ts u with building := true } else s.ts u }
  | EAction.buildCompleted t success =>
    { ts := fun u =>
        if u = t then
          { building := false
            pending := if success then false else (s.ts u).pending
            lastSuccess := success }
        else if success && (cfg.deps u).contains t then
          { s.ts u with pending := true }
        else s.ts u }

/-- Modelled from the spec: a target's dependencies are satisfied when every
dependency has a successful, non-stale result. -/
def depsSatisfied (cfg : EngineCfg) (s : EState) (t : TargetId) : Bool :=
  (cfg.deps t).all (fun d => (s.ts d).lastSuccess && !(s.ts d).pending)

/-- No declared target has a build in progress. -/
def noneBuilding (cfg : EngineCfg) (s : EState) : Bool :=
  cfg.targets.all (fun u => !(s.ts u).building)

/-- Modelled from the spec: which actions the system can emit in a state.
Watchers may report file changes for declared targets at any time. The
scheduler emits BuildStarted only for a declared, stale target whose
dependencies are satisfied and only while no build is in flight. A build
completion can only be reported for a target that is building. -/
def enabled (cfg : EngineCfg) (s : EState) : EAction → Bool
  | EAction.fileChanged t => cfg.targets.contains t
  | EAction.buildStarted t =>
    cfg.targets.contains t && (s.ts t).pending &&
      noneBuilding cfg s && depsSatisfied cfg s t
  | EAction.buildCompleted t _ => cfg.targets.contains t && (s.ts t).building

/-- The state reached by applying a sequence of actions through the reducer. -/
def runTrace (cfg : EngineCfg) (s : EState) (tr : List EAction) : EState :=
  tr.foldl (estep cfg) s

/-- Whether a sequence of actions can actually be emitted by the system,
step by step, from the given state. -/
def validTrace (cfg : EngineCfg) (s : EState) : List EAction → Bool
  | [] => true
  | a :: tr => enabled cfg s a && validTrace cfg (estep cfg s a) tr

/-- A two-target example configuration for witnesses: target 1 depends on
target 0. -/
def engineCfgEx : EngineCfg :=
  { targets := [0, 1], deps := fun t => if t = 1 then [0] else [] }

/-! ### Theorems -/

/-- Elements of the accumulator survive the appendWithoutDupes fold. -/
theorem mem_awd_foldl {x : String} :
    ∀ (b acc : List String), x ∈ acc →
      x ∈ b.foldl (fun acc s => if acc.contains s then acc else acc ++ [s]) acc
  | [], _, h => h
  | s :: brest, acc, h => by
    rw [List.foldl_cons]
    by_cases hc : acc.contains s = true
    · rw [if_pos hc]
      exact mem_awd_foldl brest acc h
    · rw [if_neg hc]
      exact mem_awd_foldl brest _ (List.mem_append_left _ h)

/-- appendWithoutDupes keeps every element of its first argument. -/
theorem mem_appendWithoutDupes_left {x : String} {a b : List String}
    (h : x ∈ a) : x ∈ appendWithoutDupes a b :=
  mem_awd_foldl b a h

/-- C10: TiltfileLoadResult.Orchestrator scans the manifests in order and is
decided by the earliest manifest that is Kubernetes- or Compose-managed:
K8s if that manifest is Kubernetes-managed, DC if it is Compose-managed,
Unknown when no manifest is either. -/
theorem C10_orchestrator (r : TiltfileLoadResult) :
    r.Orchestrator = orchestratorSpec r.Manifests := by
  show orchestratorOf r.Manifests = orchestratorSpec r.Manifests
  induction r.Manifests with
  | nil => rfl
  | cons m rest ih =>
    cases hk : m.IsK8s with
    | true => simp [orchestratorOf, orchestratorSpec, List.find?_cons, hk]
    | false =>
      cases hd : m.IsDC with
      | true => simp [orchestratorOf, orchestratorSpec, List.find?_cons, hk, hd]
      | false =>
        simpa [orchestratorOf, orchestratorSpec, List.find?_cons, hk, hd] using ih

/-- C8: Load always returns a TiltfileLoadResult (it is a total function into
that type) and its ConfigFiles are never empty: when the Tiltfile path does
not exist, ConfigFiles is exactly the given filename and Error is the
"No Tiltfile found" message; for any other resolution error ConfigFiles
contains the absolutized filename; when resolution succeeds ConfigFiles
contains the Tiltfile's absolute path, even when Error is non-nil. -/
theorem C8_load_configfiles (env : LoadEnv) (fn : String) (ucs : UserConfigState)
    (hrec : env.RecordsTiltfile) :
    (Load env fn ucs).ConfigFiles ≠ [] ∧
    (∀ e, env.realAbs fn = Except.error e → e.isNotExist = true →
      (Load env fn ucs).ConfigFiles = [fn] ∧
      (Load env fn ucs).Error =
        some { msg := noTiltfileFoundMsg fn, isNotExist := false }) ∧
    (∀ e, env.realAbs fn = Except.error e → e.isNotExist = false →
      env.abs fn ∈ (Load env fn ucs).ConfigFiles) ∧
    (∀ af, env.realAbs fn = Except.ok af → af ∈ (Load env fn ucs).ConfigFiles) := by
  cases hra : env.realAbs fn with
  | error e =>
    refine ⟨?_, ?_, ?_, ?_⟩
    · cases hne : e.isNotExist <;> simp [Load, hra, hne]
    · intro e2 he2 hne2
      cases he2
      simp [Load, hra, hne2]
    · intro e2 he2 hne2
      cases he2
      simp [Load, hra, hne2]
    · intro af haf
      cases haf
  | ok af =>
    have hmem : af ∈ (Load env fn ucs).ConfigFiles := by
      cases hrf : env.readFile (tiltIgnorePath af) with
      | error e =>
        cases hne : e.isNotExist with
        | true =>
          simp only [Load, hra, hrf, hne, Bool.not_true, Bool.false_eq_true,
            if_false, loadRest]
          exact mem_appendWithoutDupes_left (hrec af ucs)
        | false => simp [Load, hra, hrf, hne]
      | ok c =>
        simp only [Load, hra, hrf, loadRest]
        exact mem_appendWithoutDupes_left (hrec af ucs)
    refine ⟨List.ne_nil_of_mem hmem, ?_, ?_, ?_⟩
    · intro e2 he2 _
      cases he2
    · intro e2 he2 _
      cases he2
    · intro af2 haf2
      cases haf2
      exact hmem

/-- Witness for C8 at a concrete environment and filename. -/
theorem C8_load_configfiles_witness :
    c8Env.RecordsTiltfile ∧
    (Load c8Env ("Tiltfile") { args := [] }).ConfigFiles ≠ [] ∧
    ("Tiltfile" ∈ (Load c8Env ("Tiltfile") { args := [] }).ConfigFiles) := by
  have hrec : c8Env.RecordsTiltfile := by
    intro p ucs
    simp [c8Env, LoadEnv.RecordsTiltfile]
  exact ⟨hrec,
    (C8_load_configfiles c8Env ("Tiltfile") { args := [] } hrec).1,
    (C8_load_configfiles c8Env ("Tiltfile") { args := [] } hrec).2.2.2 ("Tiltfile") rfl⟩

/-- C9: when the .tiltignore next to the Tiltfile does not exist, Load
proceeds normally — TiltIgnoreContents is empty and the Error and Manifests
of the result are exactly those produced by executing the Tiltfile; when
reading .tiltignore fails with any other error, Load returns immediately
with that error and no manifests. -/
theorem C9_tiltignore (env : LoadEnv) (fn : String) (ucs : UserConfigState)
    (af : String) (hra : env.realAbs fn = Except.ok af) :
    (∀ e, env.readFile (tiltIgnorePath af) = Except.error e → e.isNotExist = true →
      (Load env fn ucs).TiltIgnoreContents = "" ∧
      (Load env fn ucs).Error = (env.loadManifests af ucs).err ∧
      (Load env fn ucs).Manifests = (env.loadManifests af ucs).manifests) ∧
    (∀ e, env.readFile (tiltIgnorePath af) = Except.error e → e.isNotExist = false →
      (Load env fn ucs).Error = some e ∧
      (Load env fn ucs).Manifests = [] ∧
      (Load env fn ucs).ConfigFiles = [af, tiltIgnorePath af]) := by
  constructor
  · intro e he hne
    simp [Load, hra, he, hne, loadRest]
  · intro e he hne
    simp [Load, hra, he, hne]

/-- Witness for C9 at a concrete environment whose .tiltignore is missing. -/
theorem C9_tiltignore_witness :
    c9Env.realAbs ("Tiltfile") = Except.ok ("Tiltfile") ∧
    c9Env.readFile (tiltIgnorePath ("Tiltfile")) =
      Except.error { msg := "ENOENT", isNotExist := true } ∧
    (Load c9Env ("Tiltfile") { args := [] }).TiltIgnoreContents = "" ∧
    (Load c9Env ("Tiltfile") { args := [] }).Manifests =
      (c9Env.loadManifests ("Tiltfile") { args := [] }).manifests := by
  have h := (C9_tiltignore c9Env ("Tiltfile") { args := [] } ("Tiltfile") rfl).1
    { msg := "ENOENT", isNotExist := true } rfl rfl
  exact ⟨rfl, rfl, h.1, h.2.2⟩

/-- The kinds the composite attempts are always an in-order initial segment
of the kinds of the strategy list it was given. -/
theorem runComposite_attempted_take {I R : Type} :
    ∀ (l : List (Strategy I R)) (i : I),
      ∃ n, (runComposite l i).2 = (l.map Strategy.kind).take n
  | [], _ => ⟨0, rfl⟩
  | s :: rest, i => by
    cases hr : s.run i with
    | success r => exact ⟨1, by simp [runComposite, hr]⟩
    | rejected reason =>
      obtain ⟨n, hn⟩ := runComposite_attempted_take rest i
      exact ⟨n + 1, by simp [runComposite, hr, hn]⟩
    | fatal e => exact ⟨1, by simp [runComposite, hr]⟩

/-- C2: with the default strategy order, if the incremental (live-update)
strategy returns Rejected and the full-image-build strategy returns Success,
the composite returns exactly one final result recording the image-build
outcome, reports no Fatal, and attempts nothing after the first Success;
and, in general, a Fatal from any strategy (after any run of rejections)
stops the chain with no further strategies attempted. -/
theorem C2_fallback {I R : Type} (lu ib dc lt : I → StratOutcome R) (i : I)
    (reason : String) (b : R)
    (hlu : lu i = StratOutcome.rejected reason)
    (hib : ib i = StratOutcome.success b) :
    runComposite (DefaultBuildOrder lu ib dc lt) i =
      (CompositeResult.success BuildStratKind.imageBuild b,
        [BuildStratKind.liveUpdate, BuildStratKind.imageBuild]) ∧
    (∀ (l1 l2 : List (Strategy I R)) (s : Strategy I R) (e : String),
      (∀ p ∈ l1, ∃ r, p.run i = StratOutcome.rejected r) →
      s.run i = StratOutcome.fatal e →
      runComposite (l1 ++ s :: l2) i =
        (CompositeResult.fatal e, l1.map Strategy.kind ++ [s.kind])) := by
  constructor
  · simp [runComposite, DefaultBuildOrder, hlu, hib]
  · intro l1 l2 s e hrej hf
    induction l1 with
    | nil => simp [runComposite, hf]
    | cons p l1 ih =>
      obtain ⟨r, hr⟩ := hrej p (List.mem_cons_self p l1)
      have := ih (fun q hq => hrej q (List.mem_cons_of_mem p hq))
      simp [runComposite, hr, this]

/-- Witness for C2 at concrete strategies. -/
theorem C2_fallback_witness :
    (fun _ : Nat => StratOutcome.rejected (R := Nat) ("no sync match")) 0 =
      StratOutcome.rejected ("no sync match") ∧
    (fun _ : Nat => StratOutcome.success (R := Nat) 42) 0 = StratOutcome.success 42 ∧
    runComposite
      (DefaultBuildOrder (fun _ => StratOutcome.rejected ("no sync match"))
        (fun _ => StratOutcome.success 42)
        (fun _ => StratOutcome.rejected ("dc"))
        (fun _ => StratOutcome.rejected ("lt"))) 0 =
      (CompositeResult.success BuildStratKind.imageBuild 42,
        [BuildStratKind.liveUpdate, BuildStratKind.imageBuild]) := by
  refine ⟨rfl, rfl, ?_⟩
  exact (C2_fallback (fun _ => StratOutcome.rejected ("no sync match"))
    (fun _ => StratOutcome.success 42)
    (fun _ => StratOutcome.rejected ("dc"))
    (fun _ => StratOutcome.rejected ("lt")) 0 ("no sync match") 42 rfl rfl).1

/-- C4: the default build order tries the candidate strategies in the fixed
priority order live update, full image build + deploy, Compose build + up,
local command execution; on any input the composite attempts them in exactly
that order (an initial segment of it). -/
theorem C4_build_order {I R : Type} (lu ib dc lt : I → StratOutcome R) :
    (DefaultBuildOrder lu ib dc lt).map Strategy.kind =
      [BuildStratKind.liveUpdate, BuildStratKind.imageBuild,
       BuildStratKind.dockerCompose, BuildStratKind.localExec] ∧
    ∀ i, ∃ n, (runComposite (DefaultBuildOrder lu ib dc lt) i).2 =
      [BuildStratKind.liveUpdate, BuildStratKind.imageBuild,
       BuildStratKind.dockerCompose, BuildStratKind.localExec].take n := by
  constructor
  · simp [DefaultBuildOrder]
  · intro i
    obtain ⟨n, hn⟩ := runComposite_attempted_take (DefaultBuildOrder lu ib dc lt) i
    exact ⟨n, by simpa [DefaultBuildOrder] using hn⟩

/-- Dispatching only enqueues: the state is untouched and the action goes to
the back of the queue. -/
theorem dispatchAll_eq {S A : Type} :
    ∀ (as : List A) (st : StoreSt S A),
      dispatchAll st as = { state := st.state, queue := st.queue ++ as }
  | [], st => by simp [dispatchAll]
  | a :: as, st => by
    have h := dispatchAll_eq as (dispatch st a)
    simp only [dispatchAll, List.foldl_cons] at h ⊢
    rw [h]
    simp [dispatch]

/-- Draining a queue applies exactly the queued actions, in order, folding
the reducer over them from the current state. -/
theorem drainTrace_eq {S A : Type} (m : StoreModel S A) :
    ∀ (q : List A) (s : S),
      drainTrace m s q = (List.foldl m.reduce s q, q)
  | [], s => rfl
  | a :: q, s => by
    simp [drainTrace, drainTrace_eq m q (m.reduce s a), List.foldl_cons]

/-- Under any interleaving of dispatches and apply iterations, the sequence
of actions the loop applies is an in-order initial segment of the pending
queue followed by the dispatched actions in arrival order. -/
theorem runEvts_take {S A : Type} (m : StoreModel S A) :
    ∀ (es : List (StoreEvt A)) (st : StoreSt S A),
      ∃ n, (runEvts m st es).2 = (st.queue ++ dispatchedOf es).take n
  | [], st => ⟨0, rfl⟩
  | StoreEvt.dispatchE a :: es, st => by
    obtain ⟨n, hn⟩ := runEvts_take m es (dispatch st a)
    refine ⟨n, ?_⟩
    simp only [runEvts, dispatchedOf]
    rw [hn]
    simp [dispatch]
  | StoreEvt.applyE :: es, st => by
    cases hq : st.queue with
    | nil =>
      obtain ⟨n, hn⟩ := runEvts_take m es st
      refine ⟨n, ?_⟩
      simp only [runEvts, procStep, hq]
      rw [hn, hq]
      simp [dispatchedOf]
    | cons a q =>
      obtain ⟨n, hn⟩ := runEvts_take m es { state := m.reduce st.state a, queue := q }
      refine ⟨n + 1, ?_⟩
      simp only [runEvts, procStep, hq]
      simp [hn, dispatchedOf]

/-- C5: Dispatch leaves the state untouched and appends to the back of the
queue (it hands off to the processing loop without running the reducer);
under any interleaving of dispatches and loop iterations the applied actions
are an in-order initial segment of the arrival order (FIFO, no reordering);
and fully draining the queue applies every dispatched action in arrival
order, folding the reducer from the starting state. -/
theorem C5_dispatch_fifo {S A : Type} (m : StoreModel S A) (st : StoreSt S A)
    (a : A) (as : List A) (es : List (StoreEvt A)) :
    dispatch st a = { state := st.state, queue := st.queue ++ [a] } ∧
    dispatchAll st as = { state := st.state, queue := st.queue ++ as } ∧
    (∃ n, (runEvts m st es).2 = (st.queue ++ dispatchedOf es).take n) ∧
    drainTrace m (dispatchAll st as).state (dispatchAll st as).queue =
      (List.foldl m.reduce st.state (st.queue ++ as), st.queue ++ as) := by
  refine ⟨rfl, dispatchAll_eq as st, runEvts_take m es st, ?_⟩
  rw [dispatchAll_eq as st]
  exact drainTrace_eq m (st.queue ++ as) st.state

/-- Running store operations splits over list append. -/
theorem stateAt_append {S A : Type} (m : StoreModel S A) :
    ∀ (l1 l2 : List (StoreOp A)) (s0 : S),
      stateAt m s0 (l1 ++ l2) = stateAt m (stateAt m s0 l1) l2
  | [], _, _ => rfl
  | StoreOp.dispatchOp a :: l1, l2, s0 => by
    simp only [List.cons_append, stateAt]
    exact stateAt_append m l1 l2 (m.reduce s0 a)
  | StoreOp.snapshotOp :: l1, l2, s0 => by
    simp only [List.cons_append, stateAt]
    exact stateAt_append m l1 l2 s0

/-- A run containing no Dispatch leaves the observable state unchanged. -/
theorem stateAt_no_dispatch {S A : Type} (m : StoreModel S A) :
    ∀ (l : List (StoreOp A)) (s0 : S),
      (∀ op ∈ l, ∀ a, op ≠ StoreOp.dispatchOp a) → stateAt m s0 l = s0
  | [], _, _ => rfl
  | StoreOp.dispatchOp a :: _, _, h =>
    absurd rfl (h (StoreOp.dispatchOp a) (List.mem_cons_self _ _) a)
  | StoreOp.snapshotOp :: l, s0, h =>
    stateAt_no_dispatch m l s0 (fun op hop => h op (List.mem_cons_of_mem _ hop))

/-- C7: two Snapshot reads with no intervening Dispatch return equal state,
and a snapshot is a point-in-time value: what a Snapshot taken after a given
operation sequence returns is unaffected by any operations dispatched
later. -/
theorem C7_snapshot_idempotent {S A : Type} (m : StoreModel S A) (s0 : S)
    (pre mid : List (StoreOp A))
    (hmid : ∀ op ∈ mid, ∀ a, op ≠ StoreOp.dispatchOp a) :
    stateAt m s0 (pre ++ mid) = stateAt m s0 pre ∧
    ∀ post : List (StoreOp A),
      stateAt m s0 ((pre ++ post).take pre.length) = stateAt m s0 pre := by
  constructor
  · rw [stateAt_append m pre mid s0, stateAt_no_dispatch m mid _ hmid]
  · intro post
    rw [List.take_left pre post]

/-- Witness for C7 with the additive store over naturals. -/
theorem C7_snapshot_idempotent_witness :
    (∀ op ∈ [StoreOp.snapshotOp (A := Nat)], ∀ a, op ≠ StoreOp.dispatchOp a) ∧
    stateAt { reduce := fun s a => s + a } 0
        ([StoreOp.dispatchOp 2, StoreOp.snapshotOp] ++ [StoreOp.snapshotOp]) =
      stateAt { reduce := fun s a => s + a } 0
        [StoreOp.dispatchOp 2, StoreOp.snapshotOp] := by
  have hmid : ∀ op ∈ [StoreOp.snapshotOp (A := Nat)], ∀ a, op ≠ StoreOp.dispatchOp a := by
    intro op hop a
    rcases List.mem_singleton.mp hop with rfl
    simp
  exact ⟨hmid,
    (C7_snapshot_idempotent { reduce := fun s a => s + a } 0
      [StoreOp.dispatchOp 2, StoreOp.snapshotOp] [StoreOp.snapshotOp] hmid).1⟩

/-- Applying an action sequence splits over list append. -/
theorem runTrace_append (cfg : EngineCfg) (l1 l2 : List EAction) (s : EState) :
    runTrace cfg s (l1 ++ l2) = runTrace cfg (runTrace cfg s l1) l2 :=
  List.foldl_append (estep cfg) s l1 l2

/-- Validity of an action sequence splits over list append. -/
theorem validTrace_append (cfg : EngineCfg) :
    ∀ (l1 l2 : List EAction) (s : EState),
      validTrace cfg s (l1 ++ l2) =
        (validTrace cfg s l1 && validTrace cfg (runTrace cfg s l1) l2)
  | [], l2, s => by simp [validTrace, runTrace]
  | a :: l1, l2, s => by
    have h := validTrace_append cfg l1 l2 (estep cfg s a)
    show (enabled cfg s a && validTrace cfg (estep cfg s a) (l1 ++ l2)) =
      ((enabled cfg s a && validTrace cfg (estep cfg s a) l1) &&
        validTrace cfg (runTrace cfg (estep cfg s a) l1) l2)
    rw [h, Bool.and_assoc]

/-- One enabled step preserves the single-flight invariant: every building
target is declared, and no two distinct targets are building. -/
theorem invC1_step (cfg : EngineCfg) (s : EState) (a : EAction)
    (h1 : ∀ t, (s.ts t).building = true → cfg.targets.contains t = true)
    (h2 : ∀ t u, (s.ts t).building = true → (s.ts u).building = true → t = u)
    (ha : enabled cfg s a = true) :
    (∀ t, ((estep cfg s a).ts t).building = true → cfg.targets.contains t = true) ∧
    (∀ t u, ((estep cfg s a).ts t).building = true →
      ((estep cfg s a).ts u).building = true → t = u) := by
  cases a with
  | fileChanged x =>
    have hb : ∀ t, ((estep cfg s (EAction.fileChanged x)).ts t).building
        = (s.ts t).building := by
      intro t
      simp only [estep]
      by_cases hx : t = x <;> simp [hx]
    constructor
    · intro t ht
      exact h1 t (by rw [← hb t]; exact ht)
    · intro t u ht hu
      exact h2 t u (by rw [← hb t]; exact ht) (by rw [← hb u]; exact hu)
  | buildStarted x =>
    simp only [enabled, Bool.and_eq_true] at ha
    obtain ⟨⟨⟨hcont, _⟩, hnb⟩, _⟩ := ha
    have hnone : ∀ t, (s.ts t).building = false := by
      intro t
      cases hbt : (s.ts t).building
      · rfl
      · exfalso
        have hmem : t ∈ cfg.targets := List.elem_iff.mp (h1 t hbt)
        have h3 := List.all_eq_true.mp hnb t hmem
        rw [hbt] at h3
        simp at h3
    have hb : ∀ t, ((estep cfg s (EAction.buildStarted x)).ts t).building = true ↔ t = x := by
      intro t
      simp only [estep]
      by_cases hx : t = x
      · simp [hx]
      · simp [hx, hnone t]
    constructor
    · intro t ht
      rw [hb t] at ht
      subst ht
      exact hcont
    · intro t u ht hu
      rw [hb t] at ht
      rw [hb u] at hu
      rw [ht, hu]
  | buildCompleted x succ =>
    have hb : ∀ t, ((estep cfg s (EAction.buildCompleted x succ)).ts t).building = true →
        (s.ts t).building = true := by
      intro t
      simp only [estep]
      by_cases hx : t = x
      · simp [hx]
      · rw [if_neg hx]
        split
        · exact fun h => h
        · exact fun h => h
    exact ⟨fun t ht => h1 t (hb t ht), fun t u ht hu => h2 t u (hb t ht) (hb u hu)⟩

/-- The single-flight invariant holds all along any valid run. -/
theorem invC1_run (cfg : EngineCfg) :
    ∀ (tr : List EAction) (s : EState),
      (∀ t, (s.ts t).building = true → cfg.targets.contains t = true) →
      (∀ t u, (s.ts t).building = true → (s.ts u).building = true → t = u) →
      validTrace cfg s tr = true →
      ∀ t u, ((runTrace cfg s tr).ts t).building = true →
        ((runTrace cfg s tr).ts u).building = true → t = u
  | [], _, _, h2, _ => h2
  | a :: tr, s, h1, h2, hv => by
    simp only [validTrace, Bool.and_eq_true] at hv
    obtain ⟨ha, hv⟩ := hv
    have hstep := invC1_step cfg s a h1 h2 ha
    exact invC1_run cfg tr (estep cfg s a) hstep.1 hstep.2 hv

/-- C1: along every valid sequence of actions, at every instant at most one
target system-wide is building — two distinct targets never both show
status building. (Every instant is the end state of some valid sequence,
since validity is closed under taking initial segments.) -/
theorem C1_single_flight (cfg : EngineCfg) (tr : List EAction)
    (hv : validTrace cfg EState.initial tr = true) :
    ∀ t u, ((runTrace cfg EState.initial tr).ts t).building = true →
      ((runTrace cfg EState.initial tr).ts u).building = true → t = u := by
  refine invC1_run cfg tr EState.initial ?_ ?_ hv
  · intro t ht
    simp [EState.initial, TargetState.initial] at ht
  · intro t u ht _
    simp [EState.initial, TargetState.initial] at ht

/-- Witness for C1 on a concrete valid trace of the two-target example. -/
theorem C1_single_flight_witness :
    validTrace engineCfgEx EState.initial
      [EAction.fileChanged 0, EAction.buildStarted 0] = true ∧
    ((runTrace engineCfgEx EState.initial
      [EAction.fileChanged 0, EAction.buildStarted 0]).ts 0).building = true ∧
    0 = 0 := by
  refine ⟨by decide, by decide, ?_⟩
  exact C1_single_flight engineCfgEx
    [EAction.fileChanged 0, EAction.buildStarted 0] (by decide) 0 0
    (by decide) (by decide)

/-- A clean target stays clean: if its pending flag is off and the sequence
contains no FileChanged for it and no successful completion of one of its
dependencies, the flag stays off. -/
theorem pending_false_run (cfg : EngineCfg) (t : TargetId) :
    ∀ (tr : List EAction) (s : EState),
      (s.ts t).pending = false →
      (∀ a ∈ tr, a ≠ EAction.fileChanged t) →
      (∀ a ∈ tr, ∀ d ∈ cfg.deps t, a ≠ EAction.buildCompleted d true) →
      ((runTrace cfg s tr).ts t).pending = false
  | [], _, hp, _, _ => hp
  | a :: tr, s, hp, hf, hd => by
    have hstep : ((estep cfg s a).ts t).pending = false := by
      cases a with
      | fileChanged x =>
        have hx : ¬t = x := by
          intro hxt
          exact hf (EAction.fileChanged x) (List.mem_cons_self _ _) (by rw [hxt])
        simp only [estep]
        rw [if_neg hx]
        exact hp
      | buildStarted x =>
        simp only [estep]
        by_cases hx : t = x
        · rw [if_pos hx]
          simpa using hp
        · rw [if_neg hx]
          exact hp
      | buildCompleted x succ =>
        simp only [estep]
        by_cases hx : t = x
        · rw [if_pos hx]
          cases succ
          · simpa using hp
          · simp
        · rw [if_neg hx]
          by_cases hc : (succ && (cfg.deps t).contains x) = true
          · exfalso
            rw [Bool.and_eq_true] at hc
            have hmem : x ∈ cfg.deps t := List.elem_iff.mp hc.2
            exact hd (EAction.buildCompleted x succ) (List.mem_cons_self _ _) x hmem
              (by rw [hc.1])
          · rw [if_neg hc]
            exact hp
    exact pending_false_run cfg t tr (estep cfg s a) hstep
      (fun b hb => hf b (List.mem_cons_of_mem _ hb))
      (fun b hb => hd b (List.mem_cons_of_mem _ hb))

/-- A stale target stays stale until its own successful completion: only
BuildCompleted(t, success) clears the pending flag. -/
theorem pending_true_run (cfg : EngineCfg) (t : TargetId) :
    ∀ (tr : List EAction) (s : EState),
      (s.ts t).pending = true →
      (∀ a ∈ tr, a ≠ EAction.buildCompleted t true) →
      ((runTrace cfg s tr).ts t).pending = true
  | [], _, hp, _ => hp
  | a :: tr, s, hp, hn => by
    have hstep : ((estep cfg s a).ts t).pending = true := by
      cases a with
      | fileChanged x =>
        simp only [estep]
        by_cases hx : t = x
        · rw [if_pos hx]
        · rw [if_neg hx]
          exact hp
      | buildStarted x =>
        simp only [estep]
        by_cases hx : t = x
        · rw [if_pos hx]
          simpa using hp
        · rw [if_neg hx]
          exact hp
      | buildCompleted x succ =>
        simp only [estep]
        by_cases hx : t = x
        · rw [if_pos hx]
          cases hsucc : succ
          · simpa using hp
          · exfalso
            apply hn (EAction.buildCompleted x true) (by rw [← hsucc]; exact List.mem_cons_self _ _)
            rw [hx]
        · rw [if_neg hx]
          by_cases hc : (succ && (cfg.deps t).contains x) = true
          · rw [if_pos hc]
          · rw [if_neg hc]
            exact hp
    exact pending_true_run cfg t tr (estep cfg s a) hstep
      (fun b hb => hn b (List.mem_cons_of_mem _ hb))

/-- C6: a clean target is never selected again — after a successful
BuildCompleted for t, if no FileChanged for t and no successful completion
of one of t's dependencies has occurred since, the scheduler cannot emit
BuildStarted for t. -/
theorem C6_staleness_monotonic (cfg : EngineCfg) (tr1 tr2 : List EAction)
    (t : TargetId)
    (hf : ∀ a ∈ tr2, a ≠ EAction.fileChanged t)
    (hd : ∀ a ∈ tr2, ∀ d ∈ cfg.deps t, a ≠ EAction.buildCompleted d true) :
    enabled cfg
      (runTrace cfg EState.initial (tr1 ++ EAction.buildCompleted t true :: tr2))
      (EAction.buildStarted t) = false := by
  have h1 : runTrace cfg EState.initial (tr1 ++ EAction.buildCompleted t true :: tr2)
      = runTrace cfg
          (estep cfg (runTrace cfg EState.initial tr1) (EAction.buildCompleted t true))
          tr2 := by
    rw [runTrace_append]
    rfl
  have hpend0 : ((estep cfg (runTrace cfg EState.initial tr1)
      (EAction.buildCompleted t true)).ts t).pending = false := by
    simp [estep]
  have hpend := pending_false_run cfg t tr2 _ hpend0 hf hd
  rw [h1]
  simp only [enabled]
  rw [hpend]
  simp

/-- Witness for C6 on the two-target example: after target 0 builds
successfully, a change to target 1 alone does not make 0 selectable. -/
theorem C6_staleness_monotonic_witness :
    (∀ a ∈ [EAction.fileChanged 1], a ≠ EAction.fileChanged 0) ∧
    (∀ a ∈ [EAction.fileChanged 1], ∀ d ∈ engineCfgEx.deps 0,
      a ≠ EAction.buildCompleted d true) ∧
    enabled engineCfgEx
      (runTrace engineCfgEx EState.initial
        ([EAction.fileChanged 0, EAction.buildStarted 0] ++
          EAction.buildCompleted 0 true :: [EAction.fileChanged 1]))
      (EAction.buildStarted 0) = false := by
  refine ⟨by decide, by decide, ?_⟩
  exact C6_staleness_monotonic engineCfgEx
    [EAction.fileChanged 0, EAction.buildStarted 0] [EAction.fileChanged 1] 0
    (by decide) (by decide)

/-- C3: dependency ordering. If B depends on A and both are stale at some
point of a valid run, then any later BuildStarted for B is preceded by a
successful BuildCompleted for A; moreover a fresh (successful) result for
any target marks every direct dependent stale — and since this rule fires
at every successful completion, staleness cascades transitively along
dependency chains. -/
theorem C3_dependency_ordering (cfg : EngineCfg) (tr1 mid : List EAction)
    (A B : TargetId)
    (hv : validTrace cfg EState.initial
      (tr1 ++ (mid ++ [EAction.buildStarted B])) = true)
    (hAB : A ∈ cfg.deps B)
    (hA : ((runTrace cfg EState.initial tr1).ts A).pending = true)
    (_hB : ((runTrace cfg EState.initial tr1).ts B).pending = true) :
    EAction.buildCompleted A true ∈ mid ∧
    (∀ (s : EState) (x u : TargetId), u ≠ x → x ∈ cfg.deps u →
      ((estep cfg s (EAction.buildCompleted x true)).ts u).pending = true) := by
  constructor
  · by_cases hmem : EAction.buildCompleted A true ∈ mid
    · exact hmem
    · exfalso
      have hmid : ∀ a ∈ mid, a ≠ EAction.buildCompleted A true :=
        fun a ha heq => hmem (heq ▸ ha)
      have hpend : ((runTrace cfg (runTrace cfg EState.initial tr1) mid).ts A).pending
          = true :=
        pending_true_run cfg A mid _ hA hmid
      rw [validTrace_append cfg tr1 _ _, Bool.and_eq_true] at hv
      obtain ⟨_, hv2⟩ := hv
      rw [validTrace_append cfg mid _ _, Bool.and_eq_true] at hv2
      obtain ⟨_, hv3⟩ := hv2
      simp only [validTrace, Bool.and_true] at hv3
      simp only [enabled, Bool.and_eq_true] at hv3
      obtain ⟨⟨⟨_, _⟩, _⟩, hds⟩ := hv3
      simp only [depsSatisfied] at hds
      have hAq := List.all_eq_true.mp hds A hAB
      rw [Bool.and_eq_true] at hAq
      have hnp := hAq.2
      rw [hpend] at hnp
      simp at hnp
  · intro s x u hne hxu
    simp only [estep]
    rw [if_neg hne]
    have hc : (true && (cfg.deps u).contains x) = true := by
      simp only [Bool.true_and]
      exact List.elem_iff.mpr hxu
    rw [if_pos hc]

/-- Witness for C3 on the two-target example: with both targets stale,
target 1 (which depends on target 0) only starts after target 0 completed
successfully. -/
theorem C3_dependency_ordering_witness :
    validTrace engineCfgEx EState.initial
      ([EAction.fileChanged 0, EAction.fileChanged 1] ++
        ([EAction.buildStarted 0, EAction.buildCompleted 0 true] ++
          [EAction.buildStarted 1])) = true ∧
    (0 : TargetId) ∈ engineCfgEx.deps 1 ∧
    ((runTrace engineCfgEx EState.initial
      [EAction.fileChanged 0, EAction.fileChanged 1]).ts 0).pending = true ∧
    ((runTrace engineCfgEx EState.initial
      [EAction.fileChanged 0, EAction.fileChanged 1]).ts 1).pending = true ∧
    EAction.buildCompleted 0 true ∈
      [EAction.buildStarted 0, EAction.buildCompleted 0 true] := by
  refine ⟨by decide, by decide, by decide, by decide, ?_⟩
  exact (C3_dependency_ordering engineCfgEx
    [EAction.fileChanged 0, EAction.fileChanged 1]
    [EAction.buildStarted 0, EAction.buildCompleted 0 true] 0 1
    (by decide) (by decide) (by decide) (by decide)).1

end Tilt
